import Mathlib

/-!
# Verification of the tis31337 emulator core

A shallow embedding of the TIS-100-style emulator from `src/main.rs`:
the operand/instruction data model, the line parser, the label-table
construction performed by `load_program`, and the fetch-execute loop
`run`, together with theorems settling the specification claims.

Machine integers: the Rust code stores the registers in `i32`; register
values are modelled as `Int`, with 32-bit wrap-around (`wrap32`) applied
exactly where the Rust code performs `i32` arithmetic (`self.acc += value`).
The `HashMap<String, usize>` label table is modelled as an association
list in which later insertions shadow earlier ones (`List.lookup` finds
the entry closest to the head, and `load_aux` places entries for later
lines closer to the head), matching `HashMap::insert` overwrite
semantics.  The `run` loop of the source has no termination guarantee
(the interpreted language can loop forever), so it is modelled with
explicit fuel: `run fuel e = none` means the loop was still running
after `fuel` steps, and `some (e, err)` means the loop exited, with
`err = some msg` when a step produced an error (the Rust code then
prints the message and exits the process).
-/

namespace TIS

/-- `Operand` from the source: `Acc`, `Bak`, `Imm(i32)`, `Label(String)`. -/
inductive Operand where
  | Acc : Operand
  | Bak : Operand
  | Imm : Int → Operand
  | Label : String → Operand
deriving DecidableEq

/-- `Instruction` from the source. -/
inductive Instruction where
  | Mov : Operand → Operand → Instruction
  | Swp : Instruction
  | Save : Instruction
  | Add : Operand → Instruction
  | Jmp : String → Instruction
  | Jez : String → Instruction
  | Jnz : String → Instruction
  | Jgz : String → Instruction
  | Jlz : String → Instruction
  | Ret : Instruction
  | Label : String → Instruction
  | Nop : Instruction
deriving DecidableEq

/-- The `Emulator` struct: registers, program counter, label table, program. -/
structure Emulator where
  acc : Int
  bak : Int
  pc : Nat
  labels : List (String × Nat)
  program : List Instruction
deriving DecidableEq

/-- `Emulator::new()`. -/
def Emulator.new : Emulator :=
  { acc := 0, bak := 0, pc := 0, labels := [], program := [] }

/-- `clamp_acc`: saturate a register value into `[-999, 999]`. -/
def clamp_acc (v : Int) : Int :=
  if v > 999 then 999 else if v < -999 then -999 else v

/-- Two's-complement wrap-around of `i32` arithmetic: the value the Rust
expression `self.acc += value` leaves in the `i32` register (release-mode
semantics) when the mathematical sum is `x`. -/
def wrap32 (x : Int) : Int :=
  (x + 2147483648) % 4294967296 - 2147483648

/-- `read_value`: resolve a source operand to an integer, or fail on a label. -/
def read_value (e : Emulator) : Operand → Except String Int
  | .Acc => .ok e.acc
  | .Bak => .ok e.bak
  | .Imm v => .ok v
  | .Label s => .error ("Cannot use label \x27" ++ s ++ "\x27 as value")

/-- `write_value`: write to a destination operand.  Only the accumulator is
writable (clamped); every other destination errors without mutating anything.
The pair returns the updated emulator together with an optional error,
mirroring the `&mut self` + `Result` structure of the source. -/
def write_value (e : Emulator) (dst : Operand) (value : Int) :
    Emulator × Option String :=
  match dst with
  | .Acc => ({ e with acc := clamp_acc value }, none)
  | .Bak => (e, some "Cannot write directly to bak")
  | .Imm _ => (e, some "Cannot write to immediate value")
  | .Label s => (e, some ("Cannot write to label \x27" ++ s))

/-- `execute`: one instruction dispatch.  Returns the post-state and an
optional error message; on error the state fields are whatever they were at
the point of the early return in the source. -/
def execute (e : Emulator) : Instruction → Emulator × Option String
  | .Mov src dst =>
    match read_value e src with
    | .error m => (e, some m)
    | .ok v =>
      match write_value e dst v with
      | (e2, some m) => (e2, some m)
      | (e2, none) => ({ e2 with pc := e2.pc + 1 }, none)
  | .Swp => ({ e with acc := e.bak, bak := e.acc, pc := e.pc + 1 }, none)
  | .Save => ({ e with bak := e.acc, pc := e.pc + 1 }, none)
  | .Add src =>
    match read_value e src with
    | .error m => (e, some m)
    | .ok v => ({ e with acc := clamp_acc (wrap32 (e.acc + v)), pc := e.pc + 1 }, none)
  | .Jmp label =>
    match e.labels.lookup label with
    | some t => ({ e with pc := t }, none)
    | none => (e, some ("Unknown label: " ++ label))
  | .Jez label =>
    if e.acc = 0 then
      match e.labels.lookup label with
      | some t => ({ e with pc := t }, none)
      | none => (e, some ("Unknown label: " ++ label))
    else ({ e with pc := e.pc + 1 }, none)
  | .Jnz label =>
    if e.acc ≠ 0 then
      match e.labels.lookup label with
      | some t => ({ e with pc := t }, none)
      | none => (e, some ("Unknown label: " ++ label))
    else ({ e with pc := e.pc + 1 }, none)
  | .Jgz label =>
    if e.acc > 0 then
      match e.labels.lookup label with
      | some t => ({ e with pc := t }, none)
      | none => (e, some ("Unknown label: " ++ label))
    else ({ e with pc := e.pc + 1 }, none)
  | .Jlz label =>
    if e.acc < 0 then
      match e.labels.lookup label with
      | some t => ({ e with pc := t }, none)
      | none => (e, some ("Unknown label: " ++ label))
    else ({ e with pc := e.pc + 1 }, none)
  | .Ret => ({ e with pc := e.program.length }, none)
  | .Label _ => ({ e with pc := e.pc + 1 }, none)
  | .Nop => ({ e with pc := e.pc + 1 }, none)

/-- ASCII lower-casing of a string, character by character
(`to_lowercase` of the source; the mnemonics compared against are ASCII). -/
def to_lowercase (s : String) : String :=
  String.mk (s.data.map Char.toLower)

/-- Strip leading and trailing whitespace from a character list (`trim`). -/
def trim_chars (cs : List Char) : List Char :=
  ((cs.dropWhile Char.isWhitespace).reverse.dropWhile Char.isWhitespace).reverse

/-- Helper for `split_whitespace`: `acc` holds the current token reversed. -/
def split_ws : List Char → List Char → List String
  | [], acc => if acc.isEmpty then [] else [String.mk acc.reverse]
  | c :: cs, acc =>
    if c.isWhitespace then
      if acc.isEmpty then split_ws cs [] else String.mk acc.reverse :: split_ws cs []
    else split_ws cs (c :: acc)

/-- `trim_end_matches`: drop every trailing occurrence of `c`. -/
def trim_end_matches (s : String) (c : Char) : String :=
  String.mk ((s.data.reverse.dropWhile (fun d => d = c)).reverse)

/-- `ends_with`: whether the final character of `s` is `c`. -/
def ends_with (s : String) (c : Char) : Bool :=
  s.data.getLast? == some c

/-- Value of an ASCII digit string. -/
def digits_to_nat (ds : List Char) : Nat :=
  ds.foldl (fun a c => a * 10 + (c.toNat - 48)) 0

/-- `str::parse::<i32>`: an optional single sign followed by one or more
ASCII digits, rejected when the value does not fit in a signed 32-bit
integer. -/
def parse_i32_core (sign : Int) (ds : List Char) : Option Int :=
  if ds ≠ [] ∧ ds.all Char.isDigit then
    if -2147483648 ≤ sign * digits_to_nat ds ∧ sign * digits_to_nat ds ≤ 2147483647 then
      some (sign * digits_to_nat ds)
    else none
  else none

/-- `str::parse::<i32>`, entry point: strip an optional single sign. -/
def parse_i32 (s : String) : Option Int :=
  match s.data with
  | [] => none
  | c :: cs =>
    if c = '+' then parse_i32_core 1 cs
    else if c = '-' then parse_i32_core (-1) cs
    else parse_i32_core 1 (c :: cs)

/-- `parse_operand`: case-insensitive `acc`/`bak`, then an `i32` immediate,
otherwise a label reference. -/
def parse_operand (token : String) : Operand :=
  if to_lowercase token = "acc" then .Acc
  else if to_lowercase token = "bak" then .Bak
  else
    match parse_i32 token with
    | some v => .Imm v
    | none => .Label token

/-- The mnemonic dispatch of `parse_line`, over the token list of a
non-blank, non-comment line. -/
def parse_tokens : List String → Instruction
  | [] => .Nop
  | t :: rest =>
    if to_lowercase t = "mov" then
      match rest with
      | [a, b] => .Mov (parse_operand (trim_end_matches a ',')) (parse_operand b)
      | _ => .Nop
    else if to_lowercase t = "swp" then .Swp
    else if to_lowercase t = "save" then .Save
    else if to_lowercase t = "add" then
      match rest with
      | [a] => .Add (parse_operand a)
      | _ => .Nop
    else if to_lowercase t = "jmp" then
      match rest with
      | [a] => .Jmp a
      | _ => .Nop
    else if to_lowercase t = "jez" then
      match rest with
      | [a] => .Jez a
      | _ => .Nop
    else if to_lowercase t = "jnz" then
      match rest with
      | [a] => .Jnz a
      | _ => .Nop
    else if to_lowercase t = "jgz" then
      match rest with
      | [a] => .Jgz a
      | _ => .Nop
    else if to_lowercase t = "jlz" then
      match rest with
      | [a] => .Jlz a
      | _ => .Nop
    else if to_lowercase t = "ret" then .Ret
    else if ends_with t ':' then .Label (trim_end_matches t ':')
    else .Nop

/-- `parse_line`: trim, discard blank and `#`-comment lines, split on
whitespace, dispatch on the first token. -/
def parse_line (line : String) : Instruction :=
  let tcs := trim_chars line.data
  if tcs = [] then .Nop
  else if tcs.head? = some '#' then .Nop
  else parse_tokens (split_ws tcs [])

/-- The `if let Instruction::Label(..)` insertion of `load_program`:
the table entry a line contributes. -/
def label_entry : Instruction → Nat → List (String × Nat)
  | .Label name, idx => [(name, idx)]
  | _, _ => []

/-- The loop body of `load_program`: parse every line, record `(name, idx)`
for each label marker.  Entries produced by later lines sit closer to the
head of the returned association list, so `List.lookup` sees the latest
insertion first — exactly the overwrite behaviour of `HashMap::insert`. -/
def load_aux : List String → Nat → List Instruction × List (String × Nat)
  | [], _ => ([], [])
  | line :: rest, idx =>
    let instr := parse_line line
    let pl := load_aux rest (idx + 1)
    (instr :: pl.1, pl.2 ++ label_entry instr idx)

/-- `load_program`: replace the program and label table, reset `pc`. -/
def load_program (e : Emulator) (lines : List String) : Emulator :=
  let pl := load_aux lines 0
  { e with program := pl.1, labels := pl.2, pc := 0 }

/-- The `run` loop with explicit fuel.  `none` means the loop was still
running when the fuel ran out; `some (e, none)` means the program counter
ran off the end of the program; `some (e, some m)` means a step failed with
message `m` (the source then reports the error and exits). -/
def run : Nat → Emulator → Option (Emulator × Option String)
  | 0, e => if e.pc < e.program.length then none else some (e, none)
  | fuel + 1, e =>
    if e.pc < e.program.length then
      match execute e (e.program.getD e.pc .Nop) with
      | (e2, some m) => some (e2, some m)
      | (e2, none) => run fuel e2
    else some (e, none)

/-! ## Generic lemmas about the run loop -/

/-- Once the loop has exited within some fuel bound, more fuel changes nothing. -/
theorem run_succ_of_some :
    ∀ (n : Nat) (e : Emulator) (o : Emulator × Option String),
      run n e = some o → run (n + 1) e = some o := by
  intro n
  induction n with
  | zero =>
    intro e o h
    simp only [run] at h ⊢
    by_cases hpc : e.pc < e.program.length
    · simp [hpc] at h
    · simp only [if_neg hpc] at h ⊢
      exact h
  | succ n ih =>
    intro e o h
    simp only [run] at h ⊢
    by_cases hpc : e.pc < e.program.length
    · simp only [if_pos hpc] at h ⊢
      cases hx : execute e (e.program.getD e.pc .Nop) with
      | mk e2 err =>
        rw [hx] at h
        cases err with
        | some m => exact h
        | none => exact ih e2 o h
    · simp only [if_neg hpc] at h ⊢
      exact h

/-- Fuel monotonicity of a finished run. -/
theorem run_add_of_some (n k : Nat) (e : Emulator) (o : Emulator × Option String)
    (h : run n e = some o) : run (n + k) e = some o := by
  induction k with
  | zero => exact h
  | succ k ih => exact run_succ_of_some (n + k) e o ih

/-! ## Claim C1: spec scenario 2 -/

/-- The six lines of end-to-end scenario 2. -/
def linesC1 : List String :=
  ["mov 0 acc", "jez is_zero", "mov 1 acc", "ret", "is_zero: mov 42 acc", "ret"]

/-- The loaded scenario-2 machine. -/
def emuC1 : Emulator := load_program Emulator.new linesC1

/-- The state scenario 2 actually halts in: the line `is_zero: mov 42 acc`
parses to just the label marker, so the branch taken performs no move and the
accumulator stays 0. -/
def finalC1 : Emulator :=
  { acc := 0, bak := 0, pc := 6, labels := [("is_zero", 4)],
    program := [.Mov (.Imm 0) .Acc, .Jez "is_zero", .Mov (.Imm 1) .Acc, .Ret,
                .Label "is_zero", .Ret] }

/-- C1 (counterexample): the six-line program of scenario 2 does NOT
terminate with accumulator 42 — no fuel bound produces a successful run
whose final accumulator is 42. -/
theorem C1_counterexample :
    ¬ ∃ (fuel : Nat) (e : Emulator), run fuel emuC1 = some (e, none) ∧ e.acc = 42 := by
  rintro ⟨fuel, e, hrun, hacc⟩
  have h10 : run 10 emuC1 = some (finalC1, none) := by decide
  have h1 : run (fuel + 10) emuC1 = some (e, none) :=
    run_add_of_some fuel 10 emuC1 (e, none) hrun
  have h2 : run (10 + fuel) emuC1 = some (finalC1, none) :=
    run_add_of_some 10 fuel emuC1 (finalC1, none) h10
  rw [Nat.add_comm] at h1
  rw [h1] at h2
  simp only [Option.some.injEq, Prod.mk.injEq] at h2
  rw [h2.1] at hacc
  exact absurd hacc (by decide)

/-- C1 (amended): running the six-line program `mov 0 acc` / `jez is_zero` /
`mov 1 acc` / `ret` / `is_zero: mov 42 acc` / `ret` from the initial state
terminates, and the final accumulator is 0, not 42: the parser turns the
line `is_zero: mov 42 acc` into a bare label marker, discarding the `mov`. -/
theorem C1_amended_final_acc_zero :
    run 10 emuC1 = some (finalC1, none) ∧ finalC1.acc = 0 ∧ finalC1.bak = 0 := by
  decide

/-! ## Claim C2: spec scenario 1 -/

/-- The four lines of end-to-end scenario 1. -/
def linesC2 : List String := ["mov 5 acc", "loop: add -1", "jnz loop", "ret"]

/-- The loaded scenario-1 machine. -/
def emuC2 : Emulator := load_program Emulator.new linesC2

/-- The program scenario 1 parses to: the `add -1` after the label is lost. -/
def progC2 : List Instruction := [.Mov (.Imm 5) .Acc, .Label "loop", .Jnz "loop", .Ret]

/-- State after the initial `mov 5 acc` (pc on the label line). -/
def s1C2 : Emulator :=
  { acc := 5, bak := 0, pc := 1, labels := [("loop", 1)], program := progC2 }

/-- State with pc on the `jnz loop` line. -/
def s2C2 : Emulator :=
  { acc := 5, bak := 0, pc := 2, labels := [("loop", 1)], program := progC2 }

/-- Scenario 1 cycles forever between the label line and the `jnz` line. -/
theorem c2_loop (n : Nat) : run n s1C2 = none ∧ run n s2C2 = none := by
  induction n with
  | zero => exact ⟨rfl, rfl⟩
  | succ n ih =>
    refine ⟨?_, ?_⟩
    · have h : run (n + 1) s1C2 = run n s2C2 := rfl
      rw [h]
      exact ih.2
    · have h : run (n + 1) s2C2 = run n s1C2 := rfl
      rw [h]
      exact ih.1

/-- Scenario 1 exhausts any fuel bound. -/
theorem c2_never (n : Nat) : run n emuC2 = none := by
  cases n with
  | zero => rfl
  | succ n =>
    have h : run (n + 1) emuC2 = run n s1C2 := rfl
    rw [h]
    exact (c2_loop n).1

/-- C2 (counterexample): the four-line program of scenario 1 does NOT
terminate with acc=0 and bak=0 — no fuel bound yields a successful run at
all. -/
theorem C2_counterexample :
    ¬ ∃ (fuel : Nat) (e : Emulator),
        run fuel emuC2 = some (e, none) ∧ e.acc = 0 ∧ e.bak = 0 := by
  rintro ⟨fuel, e, hrun, -⟩
  rw [c2_never fuel] at hrun
  exact absurd hrun (by simp)

/-- C2 (amended): running the four-line program `mov 5 acc` / `loop: add -1`
/ `jnz loop` / `ret` never terminates: `loop: add -1` parses to a bare label
marker, the decrement is discarded, the accumulator stays 5 and the `jnz`
jumps back forever — the run loop is still going when any fuel bound runs
out. -/
theorem C2_amended_nontermination : ∀ fuel : Nat, run fuel emuC2 = none :=
  c2_never

/-! ## Claim C4: Add semantics -/

/-- `wrap32` is the identity on values that fit in a signed 32-bit integer. -/
theorem wrap32_eq_of_range (x : Int) (h1 : -2147483648 ≤ x) (h2 : x ≤ 2147483647) :
    wrap32 x = x := by
  unfold wrap32
  have h3 : (0 : Int) ≤ x + 2147483648 := by omega
  have h4 : x + 2147483648 < 4294967296 := by omega
  rw [Int.emod_eq_of_lt h3 h4]
  omega

/-- C4 (counterexample): with accumulator -999, executing
`Add (Imm (-2147483648))` leaves 999 in the accumulator, while the claim's
exact-integer-arithmetic rule `clamp(acc + v)` demands -999: the Rust code
adds in `i32`, which wraps (release semantics; a debug build would panic),
so the claim as stated fails. -/
theorem C4_counterexample :
    (execute (Emulator.mk (-999) 0 0 [] []) (.Add (.Imm (-2147483648)))).1.acc = 999 ∧
    clamp_acc ((-999 : Int) + -2147483648) = -999 ∧ ((999 : Int) ≠ -999) := by
  decide

/-- C4 (amended): for every machine state and readable source operand,
`Add(src)` sets the accumulator to `clamp_acc` of the 32-bit-wrapped sum
`wrap32 (acc + read_value src)` and advances the program counter by 1; the
wrapped sum agrees with the exact integer sum whenever that sum fits in a
signed 32-bit integer. -/
theorem C4_amended_wrapping_add (e : Emulator) (v : Int) :
    execute e (.Add .Acc)
      = ({ e with acc := clamp_acc (wrap32 (e.acc + e.acc)), pc := e.pc + 1 }, none) ∧
    execute e (.Add .Bak)
      = ({ e with acc := clamp_acc (wrap32 (e.acc + e.bak)), pc := e.pc + 1 }, none) ∧
    execute e (.Add (.Imm v))
      = ({ e with acc := clamp_acc (wrap32 (e.acc + v)), pc := e.pc + 1 }, none) ∧
    (∀ x : Int, -2147483648 ≤ e.acc + x → e.acc + x ≤ 2147483647 →
      clamp_acc (wrap32 (e.acc + x)) = clamp_acc (e.acc + x)) := by
  refine ⟨rfl, rfl, rfl, ?_⟩
  intro x h1 h2
  rw [wrap32_eq_of_range (e.acc + x) h1 h2]

/-- Witness for C4 at a concrete state. -/
theorem C4_witness :
    execute (Emulator.mk 7 3 0 [] []) (.Add .Acc) = (Emulator.mk 14 3 1 [] [], none) ∧
    execute (Emulator.mk 7 3 0 [] []) (.Add .Bak) = (Emulator.mk 10 3 1 [] [], none) ∧
    execute (Emulator.mk 7 3 0 [] []) (.Add (.Imm 5)) = (Emulator.mk 12 3 1 [] [], none) ∧
    clamp_acc (wrap32 ((7 : Int) + 10)) = clamp_acc ((7 : Int) + 10) := by
  have h := C4_amended_wrapping_add (Emulator.mk 7 3 0 [] []) 5
  exact ⟨h.1, h.2.1, h.2.2.1, h.2.2.2 10 (by decide) (by decide)⟩

/-! ## Claim C7: jump semantics -/

/-- C7: with label `L` bound to index `t` in the table, `Jmp` always sets the
program counter to `t` regardless of the accumulator, and each conditional
jump behaves like `Jmp` exactly when its guard holds, advancing the program
counter by 1 otherwise. -/
theorem C7_jump_semantics (e : Emulator) (L : String) (t : Nat)
    (h : e.labels.lookup L = some t) :
    execute e (.Jmp L) = ({ e with pc := t }, none) ∧
    execute e (.Jez L)
      = (if e.acc = 0 then { e with pc := t } else { e with pc := e.pc + 1 }, none) ∧
    execute e (.Jnz L)
      = (if e.acc ≠ 0 then { e with pc := t } else { e with pc := e.pc + 1 }, none) ∧
    execute e (.Jgz L)
      = (if e.acc > 0 then { e with pc := t } else { e with pc := e.pc + 1 }, none) ∧
    execute e (.Jlz L)
      = (if e.acc < 0 then { e with pc := t } else { e with pc := e.pc + 1 }, none) := by
  refine ⟨by simp [execute, h], ?_, ?_, ?_, ?_⟩
  · by_cases hc : e.acc = 0 <;> simp [execute, h, hc]
  · by_cases hc : e.acc = 0 <;> simp [execute, h, hc]
  · by_cases hc : e.acc > 0 <;> simp [execute, h, hc]
  · by_cases hc : e.acc < 0 <;> simp [execute, h, hc]

/-- A concrete machine whose table binds `x` to 3. -/
def jumpDemo : Emulator := { acc := 0, bak := 0, pc := 0, labels := [("x", 3)], program := [] }

/-- Witness for C7 at a concrete state. -/
theorem C7_witness :
    jumpDemo.labels.lookup "x" = some 3 ∧
    (execute jumpDemo (.Jmp "x") = ({ jumpDemo with pc := 3 }, none) ∧
     execute jumpDemo (.Jez "x")
       = (if jumpDemo.acc = 0 then { jumpDemo with pc := 3 }
          else { jumpDemo with pc := jumpDemo.pc + 1 }, none) ∧
     execute jumpDemo (.Jnz "x")
       = (if jumpDemo.acc ≠ 0 then { jumpDemo with pc := 3 }
          else { jumpDemo with pc := jumpDemo.pc + 1 }, none) ∧
     execute jumpDemo (.Jgz "x")
       = (if jumpDemo.acc > 0 then { jumpDemo with pc := 3 }
          else { jumpDemo with pc := jumpDemo.pc + 1 }, none) ∧
     execute jumpDemo (.Jlz "x")
       = (if jumpDemo.acc < 0 then { jumpDemo with pc := 3 }
          else { jumpDemo with pc := jumpDemo.pc + 1 }, none)) :=
  ⟨rfl, C7_jump_semantics jumpDemo "x" 3 rfl⟩

/-! ## Claim C8: Swap is self-inverse -/

/-- C8: `Swp` exchanges the registers in place and advances the program
counter by 1, so two consecutive swaps restore the original pair
`(acc, bak)` (and everything but the program counter). -/
theorem C8_swp_self_inverse (e : Emulator) :
    execute e .Swp = ({ e with acc := e.bak, bak := e.acc, pc := e.pc + 1 }, none) ∧
    execute { e with acc := e.bak, bak := e.acc, pc := e.pc + 1 } .Swp
      = ({ e with pc := e.pc + 2 }, none) :=
  ⟨rfl, rfl⟩

/-! ## Claim C5: failing steps mutate nothing and stop the run -/

/-- Every error path of `execute` returns before any field is mutated. -/
theorem exec_error_frozen (e e2 : Emulator) (i : Instruction) (m : String)
    (h : execute e i = (e2, some m)) : e2 = e := by
  cases i with
  | Mov src dst =>
    cases src <;> cases dst <;>
      simp only [execute, read_value, write_value] at h <;> simp_all
  | Swp => simp [execute] at h
  | Save => simp [execute] at h
  | Add src =>
    cases src <;> simp only [execute, read_value] at h <;> simp_all
  | Jmp L =>
    simp only [execute] at h
    cases hl : e.labels.lookup L <;> rw [hl] at h <;> simp_all
  | Jez L =>
    simp only [execute] at h
    by_cases hc : e.acc = 0
    · rw [if_pos hc] at h
      cases hl : e.labels.lookup L <;> rw [hl] at h <;> simp_all
    · rw [if_neg hc] at h
      simp_all
  | Jnz L =>
    simp only [execute] at h
    by_cases hc : e.acc ≠ 0
    · rw [if_pos hc] at h
      cases hl : e.labels.lookup L <;> rw [hl] at h <;> simp_all
    · rw [if_neg hc] at h
      simp_all
  | Jgz L =>
    simp only [execute] at h
    by_cases hc : e.acc > 0
    · rw [if_pos hc] at h
      cases hl : e.labels.lookup L <;> rw [hl] at h <;> simp_all
    · rw [if_neg hc] at h
      simp_all
  | Jlz L =>
    simp only [execute] at h
    by_cases hc : e.acc < 0
    · rw [if_pos hc] at h
      cases hl : e.labels.lookup L <;> rw [hl] at h <;> simp_all
    · rw [if_neg hc] at h
      simp_all
  | Ret => simp [execute] at h
  | Label s => simp [execute] at h
  | Nop => simp [execute] at h

/-- C5: a step that produces an error leaves the whole machine state — in
particular accumulator, backup register and program counter — exactly as it
was, and the run loop reports the error immediately from that unchanged
state, executing no further step. -/
theorem C5_error_isolation (e e2 : Emulator) (i : Instruction) (m : String)
    (h : execute e i = (e2, some m)) :
    e2 = e ∧
    ∀ fuel : Nat, e.pc < e.program.length → e.program.getD e.pc .Nop = i →
      run (fuel + 1) e = some (e, some m) := by
  have he := exec_error_frozen e e2 i m h
  subst he
  refine ⟨rfl, ?_⟩
  intro fuel hpc hi
  simp only [run, if_pos hpc]
  rw [hi, h]

/-- A machine about to `Mov` into the backup register. -/
def bakDemo : Emulator :=
  { acc := 1, bak := 2, pc := 0, labels := [], program := [.Mov (.Imm 7) .Bak] }

/-- Witness for C5: `mov 7 bak` fails and the run stops in the start state. -/
theorem C5_witness :
    bakDemo = bakDemo ∧
    run 3 bakDemo = some (bakDemo, some "Cannot write directly to bak") := by
  have h := C5_error_isolation bakDemo bakDemo (.Mov (.Imm 7) .Bak)
    "Cannot write directly to bak" (by decide)
  exact ⟨h.1, h.2 2 (by decide) (by decide)⟩

/-! ## Claim C6: both registers stay within the clamp range -/

/-- `clamp_acc` always lands in `[-999, 999]`. -/
theorem clamp_acc_bounds (v : Int) : -999 ≤ clamp_acc v ∧ clamp_acc v ≤ 999 := by
  unfold clamp_acc
  split_ifs <;> omega

/-- A successful step keeps both registers within `[-999, 999]`. -/
theorem exec_ok_bounds (e e2 : Emulator) (i : Instruction)
    (h : execute e i = (e2, none))
    (hacc : -999 ≤ e.acc ∧ e.acc ≤ 999) (hbak : -999 ≤ e.bak ∧ e.bak ≤ 999) :
    (-999 ≤ e2.acc ∧ e2.acc ≤ 999) ∧ (-999 ≤ e2.bak ∧ e2.bak ≤ 999) := by
  cases i with
  | Mov src dst =>
    cases src <;> cases dst <;> simp [execute, read_value, write_value] at h <;>
      (subst h; exact ⟨clamp_acc_bounds _, hbak⟩)
  | Swp =>
    simp [execute] at h
    subst h
    exact ⟨hbak, hacc⟩
  | Save =>
    simp [execute] at h
    subst h
    exact ⟨hacc, hacc⟩
  | Add src =>
    cases src <;> simp [execute, read_value] at h <;>
      (subst h; exact ⟨clamp_acc_bounds _, hbak⟩)
  | Jmp L =>
    simp only [execute] at h
    cases hl : e.labels.lookup L <;> rw [hl] at h <;> simp at h <;>
      (subst h; exact ⟨hacc, hbak⟩)
  | Jez L =>
    simp only [execute] at h
    by_cases hc : e.acc = 0
    · rw [if_pos hc] at h
      cases hl : e.labels.lookup L <;> rw [hl] at h <;> simp at h <;>
        (subst h; exact ⟨hacc, hbak⟩)
    · rw [if_neg hc] at h
      simp at h
      subst h
      exact ⟨hacc, hbak⟩
  | Jnz L =>
    simp only [execute] at h
    by_cases hc : e.acc ≠ 0
    · rw [if_pos hc] at h
      cases hl : e.labels.lookup L <;> rw [hl] at h <;> simp at h <;>
        (subst h; exact ⟨hacc, hbak⟩)
    · rw [if_neg hc] at h
      simp at h
      subst h
      exact ⟨hacc, hbak⟩
  | Jgz L =>
    simp only [execute] at h
    by_cases hc : e.acc > 0
    · rw [if_pos hc] at h
      cases hl : e.labels.lookup L <;> rw [hl] at h <;> simp at h <;>
        (subst h; exact ⟨hacc, hbak⟩)
    · rw [if_neg hc] at h
      simp at h
      subst h
      exact ⟨hacc, hbak⟩
  | Jlz L =>
    simp only [execute] at h
    by_cases hc : e.acc < 0
    · rw [if_pos hc] at h
      cases hl : e.labels.lookup L <;> rw [hl] at h <;> simp at h <;>
        (subst h; exact ⟨hacc, hbak⟩)
    · rw [if_neg hc] at h
      simp at h
      subst h
      exact ⟨hacc, hbak⟩
  | Ret =>
    simp [execute] at h
    subst h
    exact ⟨hacc, hbak⟩
  | Label s =>
    simp [execute] at h
    subst h
    exact ⟨hacc, hbak⟩
  | Nop =>
    simp [execute] at h
    subst h
    exact ⟨hacc, hbak⟩

/-- A sequence of successful `execute` steps, as performed by the run loop. -/
def exec_steps : List Instruction → Emulator → Option Emulator
  | [], e => some e
  | i :: rest, e =>
    match execute e i with
    | (e2, none) => exec_steps rest e2
    | (_, some _) => none

/-- Bounds are preserved along any successful step sequence. -/
theorem exec_steps_bounds :
    ∀ (is : List Instruction) (e0 e : Emulator),
      ((-999 ≤ e0.acc ∧ e0.acc ≤ 999) ∧ (-999 ≤ e0.bak ∧ e0.bak ≤ 999)) →
      exec_steps is e0 = some e →
      (-999 ≤ e.acc ∧ e.acc ≤ 999) ∧ (-999 ≤ e.bak ∧ e.bak ≤ 999) := by
  intro is
  induction is with
  | nil =>
    intro e0 e h0 h
    simp only [exec_steps, Option.some.injEq] at h
    rw [← h]
    exact h0
  | cons i rest ih =>
    intro e0 e h0 h
    simp only [exec_steps] at h
    cases hx : execute e0 i with
    | mk e2 err =>
      rw [hx] at h
      cases err with
      | some m => simp at h
      | none => exact ih e2 e (exec_ok_bounds e0 e2 i hx h0.1 h0.2) h

/-- C6: every state reachable from the initial state (acc=0, bak=0) by a
sequence of successful steps — for any program and label table — has both
the accumulator and the backup register in `[-999, 999]`: the accumulator is
clamped on every write and arithmetic update, and the backup register only
ever receives the already-clamped accumulator value. -/
theorem C6_registers_clamped (labels : List (String × Nat)) (prog : List Instruction)
    (is : List Instruction) (e : Emulator)
    (h : exec_steps is (Emulator.mk 0 0 0 labels prog) = some e) :
    (-999 ≤ e.acc ∧ e.acc ≤ 999) ∧ (-999 ≤ e.bak ∧ e.bak ≤ 999) :=
  exec_steps_bounds is (Emulator.mk 0 0 0 labels prog) e (by norm_num) h

/-- Witness for C6 after one concrete `add 5`. -/
theorem C6_witness :
    (-999 ≤ (Emulator.mk 5 0 1 [] []).acc ∧ (Emulator.mk 5 0 1 [] []).acc ≤ 999) ∧
    (-999 ≤ (Emulator.mk 5 0 1 [] []).bak ∧ (Emulator.mk 5 0 1 [] []).bak ≤ 999) :=
  C6_registers_clamped [] [] [.Add (.Imm 5)] (Emulator.mk 5 0 1 [] []) (by decide)

/-! ## Claim C3: no arity check for swp / save / ret -/

/-- C3 (counterexample): lines whose first token is `swp`, `save` or `ret`
followed by a further token decode to the instruction itself, not to `Nop`:
the source performs no arity check for these three mnemonics. -/
theorem C3_counterexample :
    parse_line "swp x" = Instruction.Swp ∧
    parse_line "save x" = Instruction.Save ∧
    parse_line "ret x" = Instruction.Ret ∧
    Instruction.Swp ≠ Instruction.Nop ∧
    Instruction.Save ≠ Instruction.Nop ∧
    Instruction.Ret ≠ Instruction.Nop := by
  decide

/-- C3 (amended): for every non-blank, non-comment line whose first
whitespace token lower-cases to `swp`, `save` or `ret`, the parser returns
`Swp`, `Save` or `Ret` respectively, regardless of how many further tokens
the line carries — extra operands are ignored, not rejected as `Nop`. -/
theorem C3_amended_no_arity_check (line : String) (t : String) (rest : List String)
    (h0 : trim_chars line.data ≠ [])
    (h1 : (trim_chars line.data).head? ≠ some '#')
    (h2 : split_ws (trim_chars line.data) [] = t :: rest) :
    (to_lowercase t = "swp" → parse_line line = .Swp) ∧
    (to_lowercase t = "save" → parse_line line = .Save) ∧
    (to_lowercase t = "ret" → parse_line line = .Ret) := by
  have hp : parse_line line = parse_tokens (t :: rest) := by
    unfold parse_line
    rw [if_neg h0, if_neg h1, h2]
  refine ⟨?_, ?_, ?_⟩ <;> intro ht <;> rw [hp] <;> simp only [parse_tokens] <;>
    rw [ht] <;> simp

/-- Witness for C3 at the concrete line `swp x`. -/
theorem C3_witness :
    split_ws (trim_chars ("swp x").data) [] = ["swp", "x"] ∧
    ((to_lowercase "swp" = "swp" → parse_line "swp x" = .Swp) ∧
     (to_lowercase "swp" = "save" → parse_line "swp x" = .Save) ∧
     (to_lowercase "swp" = "ret" → parse_line "swp x" = .Ret)) :=
  ⟨by decide, C3_amended_no_arity_check "swp x" "swp" ["x"] (by decide) (by decide) (by decide)⟩

/-! ## Claim C9: duplicate labels — the last declaration wins -/

/-- Lookup distributes over append: a hit in the front part wins. -/
theorem lookup_append_some {α β : Type} [BEq α] (a : α) :
    ∀ (l1 l2 : List (α × β)) (v : β),
      l1.lookup a = some v → (l1 ++ l2).lookup a = some v := by
  intro l1
  induction l1 with
  | nil =>
    intro l2 v h
    simp [List.lookup] at h
  | cons hd tl ih =>
    intro l2 v h
    obtain ⟨k, b⟩ := hd
    simp only [List.cons_append, List.lookup] at h ⊢
    cases hab : a == k with
    | true => rw [hab] at h; exact h
    | false => rw [hab] at h; exact ih l2 v h

/-- Lookup distributes over append: a miss in the front part defers. -/
theorem lookup_append_none {α β : Type} [BEq α] (a : α) :
    ∀ (l1 l2 : List (α × β)),
      l1.lookup a = none → (l1 ++ l2).lookup a = l2.lookup a := by
  intro l1
  induction l1 with
  | nil => intro l2 h; simp
  | cons hd tl ih =>
    intro l2 h
    obtain ⟨k, b⟩ := hd
    simp only [List.cons_append, List.lookup] at h ⊢
    cases hab : a == k with
    | true => rw [hab] at h; simp at h
    | false => rw [hab] at h; exact ih l2 h

/-- If no line declares `name`, the built table has no entry for it. -/
theorem load_aux_labels_none :
    ∀ (lines : List String) (idx : Nat) (name : String),
      (∀ k, k < lines.length → parse_line (lines.getD k "") ≠ .Label name) →
      (load_aux lines idx).2.lookup name = none := by
  intro lines
  induction lines with
  | nil => intro idx name _; rfl
  | cons line rest ih =>
    intro idx name hnot
    simp only [load_aux]
    have hrest : (load_aux rest (idx + 1)).2.lookup name = none :=
      ih (idx + 1) name (fun k hk => by
        have := hnot (k + 1) (by simpa using Nat.succ_lt_succ hk)
        simpa using this)
    rw [lookup_append_none name _ _ hrest]
    have h0 := hnot 0 (Nat.succ_pos rest.length)
    simp only [List.getD_cons_zero] at h0
    cases hparse : parse_line line with
    | Label n =>
      rw [hparse] at h0
      have hne : name ≠ n := fun hEq => h0 (by rw [hEq])
      simp only [label_entry, List.lookup]
      rw [show (name == n) = false from beq_eq_false_iff_ne.mpr hne]
    | _ => simp [label_entry, List.lookup]

/-- If line `j` declares `name` and no later line does, the table maps
`name` to `idx + j`. -/
theorem load_aux_labels_last :
    ∀ (lines : List String) (idx j : Nat) (name : String),
      j < lines.length →
      parse_line (lines.getD j "") = .Label name →
      (∀ k, j < k → k < lines.length → parse_line (lines.getD k "") ≠ .Label name) →
      (load_aux lines idx).2.lookup name = some (idx + j) := by
  intro lines
  induction lines with
  | nil => intro idx j name hj; simp at hj
  | cons line rest ih =>
    intro idx j name hj hdecl hlast
    simp only [load_aux]
    cases j with
    | zero =>
      simp only [List.getD_cons_zero] at hdecl
      have hrest : (load_aux rest (idx + 1)).2.lookup name = none :=
        load_aux_labels_none rest (idx + 1) name (fun k hk => by
          have := hlast (k + 1) (Nat.succ_pos k) (by simpa using Nat.succ_lt_succ hk)
          simpa using this)
      rw [lookup_append_none name _ _ hrest, hdecl]
      simp [label_entry, List.lookup]
    | succ j0 =>
      have hdecl0 : parse_line (rest.getD j0 "") = .Label name := by
        simpa using hdecl
      have hlast0 : ∀ k, j0 < k → k < rest.length →
          parse_line (rest.getD k "") ≠ .Label name := fun k hk1 hk2 => by
        have := hlast (k + 1) (Nat.succ_lt_succ hk1) (by simpa using Nat.succ_lt_succ hk2)
        simpa using this
      have hj0 : j0 < rest.length := by simpa using Nat.lt_of_succ_lt_succ hj
      have ihm := ih (idx + 1) j0 name hj0 hdecl0 hlast0
      have harith : idx + (j0 + 1) = (idx + 1) + j0 := by omega
      rw [harith]
      exact lookup_append_some name _ _ _ ihm

/-- C9: when the same label name is declared on several lines, the table
built by `load_program` maps it to the index of the last declaring line, and
every `Jmp` on that name from a machine carrying this table jumps there. -/
theorem C9_last_label_wins (lines : List String) (name : String) (j : Nat)
    (hj : j < lines.length)
    (hdecl : parse_line (lines.getD j "") = .Label name)
    (hlast : ∀ k, j < k → k < lines.length → parse_line (lines.getD k "") ≠ .Label name) :
    (load_program Emulator.new lines).labels.lookup name = some j ∧
    ∀ st : Emulator, st.labels = (load_program Emulator.new lines).labels →
      execute st (.Jmp name) = ({ st with pc := j }, none) := by
  have hl : (load_program Emulator.new lines).labels.lookup name = some j := by
    have h := load_aux_labels_last lines 0 j name hj hdecl hlast
    simpa [load_program] using h
  refine ⟨hl, ?_⟩
  intro st hst
  simp [execute, hst, hl]

/-- Witness for C9: `x` declared on lines 0 and 1 resolves to line 1. -/
theorem C9_witness :
    (load_program Emulator.new ["x:", "x:"]).labels.lookup "x" = some 1 ∧
    ∀ st : Emulator, st.labels = (load_program Emulator.new ["x:", "x:"]).labels →
      execute st (.Jmp "x") = ({ st with pc := 1 }, none) :=
  C9_last_label_wins ["x:", "x:"] "x" 1 (by decide) (by decide)
    (fun k h1 h2 => by simp only [List.length_cons, List.length_nil] at h2; omega)

/-! ## Claim C10: numeric-looking tokens that overflow i32 become labels -/

/-- Lower-casing leaves ASCII digits unchanged. -/
theorem toLower_digit (c : Char) (h : c.isDigit = true) : c.toLower = c := by
  simp only [Char.isDigit, Bool.and_eq_true, decide_eq_true_eq] at h
  have h2 : c.val.toNat ≤ 57 := UInt32.toNat_le_of_le (by norm_num) h.2
  have hcond : ¬(Char.toNat c ≥ 65 ∧ Char.toNat c ≤ 90) := by
    intro hc
    have h5 : Char.toNat c = c.val.toNat := rfl
    omega
  simp only [Char.toLower]
  rw [if_neg hcond]

/-- A token made of an optional sign and digits never lower-cases to
`acc` or `bak`. -/
theorem lower_not_acc_bak (token : String) (sgn ds : List Char)
    (hs : sgn = [] ∨ sgn = ['+'] ∨ sgn = ['-'])
    (hds : ds ≠ [])
    (hdig : ∀ c ∈ ds, c.isDigit = true)
    (htok : token.data = sgn ++ ds) :
    to_lowercase token ≠ "acc" ∧ to_lowercase token ≠ "bak" := by
  have hmap : (to_lowercase token).data = (sgn ++ ds).map Char.toLower := by
    have h1 : (to_lowercase token).data = token.data.map Char.toLower := rfl
    rw [h1, htok]
  constructor
  · intro hEq
    have hh : ((sgn ++ ds).map Char.toLower).head? = some 'a' := by
      rw [← hmap, hEq]
      decide
    rcases hs with rfl | rfl | rfl
    · cases ds with
      | nil => exact hds rfl
      | cons d ds2 =>
        simp only [List.nil_append, List.map_cons, List.head?_cons,
          Option.some.injEq] at hh
        have hd := hdig d (List.mem_cons_self d ds2)
        rw [toLower_digit d hd] at hh
        rw [hh] at hd
        exact absurd hd (by decide)
    · simp only [List.cons_append, List.map_cons, List.head?_cons,
        Option.some.injEq] at hh
      exact absurd hh (by decide)
    · simp only [List.cons_append, List.map_cons, List.head?_cons,
        Option.some.injEq] at hh
      exact absurd hh (by decide)
  · intro hEq
    have hh : ((sgn ++ ds).map Char.toLower).head? = some 'b' := by
      rw [← hmap, hEq]
      decide
    rcases hs with rfl | rfl | rfl
    · cases ds with
      | nil => exact hds rfl
      | cons d ds2 =>
        simp only [List.nil_append, List.map_cons, List.head?_cons,
          Option.some.injEq] at hh
        have hd := hdig d (List.mem_cons_self d ds2)
        rw [toLower_digit d hd] at hh
        rw [hh] at hd
        exact absurd hd (by decide)
    · simp only [List.cons_append, List.map_cons, List.head?_cons,
        Option.some.injEq] at hh
      exact absurd hh (by decide)
    · simp only [List.cons_append, List.map_cons, List.head?_cons,
        Option.some.injEq] at hh
      exact absurd hh (by decide)

/-- Unfolding `parse_i32` through its scrutinee. -/
theorem parse_i32_data (token : String) (c : Char) (cs : List Char)
    (h : token.data = c :: cs) :
    parse_i32 token = if c = '+' then parse_i32_core 1 cs
      else if c = '-' then parse_i32_core (-1) cs
      else parse_i32_core 1 (c :: cs) := by
  unfold parse_i32
  rw [h]

/-- A positive digit string beyond `i32::MAX` is rejected. -/
theorem parse_i32_core_overflow_pos (ds : List Char) (hds : ds ≠ [])
    (hall : ds.all Char.isDigit = true) (hover : 2147483647 < digits_to_nat ds) :
    parse_i32_core 1 ds = none := by
  have hno : ¬(-2147483648 ≤ (1 : Int) * (digits_to_nat ds : Int) ∧
      (1 : Int) * (digits_to_nat ds : Int) ≤ 2147483647) := by
    rintro ⟨-, h2⟩
    rw [one_mul] at h2
    omega
  unfold parse_i32_core
  rw [if_pos ⟨hds, hall⟩, if_neg hno]

/-- A negated digit string beyond `i32::MIN` is rejected. -/
theorem parse_i32_core_overflow_neg (ds : List Char) (hds : ds ≠ [])
    (hall : ds.all Char.isDigit = true) (hover : 2147483648 < digits_to_nat ds) :
    parse_i32_core (-1) ds = none := by
  have hno : ¬(-2147483648 ≤ (-1 : Int) * (digits_to_nat ds : Int) ∧
      (-1 : Int) * (digits_to_nat ds : Int) ≤ 2147483647) := by
    rintro ⟨h1, -⟩
    rw [neg_one_mul] at h1
    omega
  unfold parse_i32_core
  rw [if_pos ⟨hds, hall⟩, if_neg hno]

/-- A numeric-looking token whose value does not fit in `i32` fails to parse. -/
theorem parse_i32_overflow (token : String) (sgn ds : List Char)
    (hs : sgn = [] ∨ sgn = ['+'] ∨ sgn = ['-'])
    (hds : ds ≠ [])
    (hdig : ∀ c ∈ ds, c.isDigit = true)
    (htok : token.data = sgn ++ ds)
    (hover : if sgn = ['-'] then 2147483648 < digits_to_nat ds
             else 2147483647 < digits_to_nat ds) :
    parse_i32 token = none := by
  have hall : ds.all Char.isDigit = true := List.all_eq_true.mpr hdig
  rcases hs with rfl | rfl | rfl
  · rw [if_neg (by decide)] at hover
    cases ds with
    | nil => exact absurd rfl hds
    | cons d ds2 =>
      have hd := hdig d (List.mem_cons_self d ds2)
      have hne1 : ¬(d = '+') := fun hEq => by
        rw [hEq] at hd; exact absurd hd (by decide)
      have hne2 : ¬(d = '-') := fun hEq => by
        rw [hEq] at hd; exact absurd hd (by decide)
      rw [parse_i32_data token d ds2 (by simpa using htok), if_neg hne1, if_neg hne2]
      exact parse_i32_core_overflow_pos (d :: ds2) hds hall hover
  · rw [if_neg (by decide)] at hover
    rw [parse_i32_data token '+' ds (by simpa using htok), if_pos rfl]
    exact parse_i32_core_overflow_pos ds hds hall hover
  · rw [if_pos rfl] at hover
    rw [parse_i32_data token '-' ds (by simpa using htok), if_neg (by decide), if_pos rfl]
    exact parse_i32_core_overflow_neg ds hds hall hover

/-- C10: a data-operand token shaped like an integer (optional sign plus
digits) whose value does not fit in a signed 32-bit integer decodes to a
`Label` reference, not an `Imm`; consequently using it as the source of
`Add` or `Mov` fails at execution time with the "cannot use label as value"
error, leaving the state untouched — there is no parse-time error and no
clamped immediate. -/
theorem C10_overflow_token_is_label (token : String) (sgn ds : List Char)
    (hs : sgn = [] ∨ sgn = ['+'] ∨ sgn = ['-'])
    (hds : ds ≠ [])
    (hdig : ∀ c ∈ ds, c.isDigit = true)
    (htok : token.data = sgn ++ ds)
    (hover : if sgn = ['-'] then 2147483648 < digits_to_nat ds
             else 2147483647 < digits_to_nat ds) :
    parse_operand token = .Label token ∧
    ∀ (e : Emulator) (dst : Operand),
      execute e (.Add (.Label token))
        = (e, some ("Cannot use label \x27" ++ token ++ "\x27 as value")) ∧
      execute e (.Mov (.Label token) dst)
        = (e, some ("Cannot use label \x27" ++ token ++ "\x27 as value")) := by
  obtain ⟨hacc, hbak⟩ := lower_not_acc_bak token sgn ds hs hds hdig htok
  have hnone := parse_i32_overflow token sgn ds hs hds hdig htok hover
  refine ⟨?_, fun e dst => ⟨rfl, rfl⟩⟩
  unfold parse_operand
  rw [if_neg hacc, if_neg hbak, hnone]

/-- Witness for C10 at the token `9999999999`. -/
theorem C10_witness :
    parse_operand "9999999999" = Operand.Label "9999999999" ∧
    ∀ (e : Emulator) (dst : Operand),
      execute e (.Add (.Label "9999999999"))
        = (e, some "Cannot use label \x279999999999\x27 as value") ∧
      execute e (.Mov (.Label "9999999999") dst)
        = (e, some "Cannot use label \x279999999999\x27 as value") :=
  C10_overflow_token_is_label "9999999999" []
    ['9', '9', '9', '9', '9', '9', '9', '9', '9', '9']
    (Or.inl rfl) (by decide) (by decide) (by decide) (by decide)

end TIS
